import Mathlib

/-!
# Verification of the healthy-recipes catalog (scraper + local document store)

Shallow embedding of the repository's two core components:

* `RecipeScraper` (src/js/scraper.js) — URL recipe extraction: JSON-LD
  normalization, duration/servings parsing, category classification.
* `RecipeDB` (db.js, later revision) — the local document store: add /
  update / saveNote / import / export, with the remote GitHub write
  modelled as an explicit `Except String Unit` outcome parameter and the
  side effects (localStorage persist, remote sync attempt) recorded in an
  explicit effect counter.

JavaScript values flowing through the scraper are modelled by an inductive
`Json` type (including `undefined` for the result of reading an absent
property).  JS machine behaviour that the code relies on — falsiness,
`String(v)` coercion, `parseInt`, property access, `typeof null ===
"object"` — is embedded explicitly.  Host APIs (the DOM parser, `fetch`,
`new URL`, `JSON.stringify`/`JSON.parse` transport) are modelled at their
observable boundary: a fetched page is an abstract `Page` of the queries
the code performs on it, and serialization of the collection document is
modelled as the identity on the parsed document.
-/

namespace RecipesKD

/-! ## The recipe record stored by `RecipeDB`

Mirrors the fields the store's code touches.  A JS object may simply lack
a field; for the string fields the code only ever tests them for
falsiness (`!recipe.id`, `recipe.dateAdded ||`), so the empty string
models an absent/empty field faithfully. -/

structure Recipe where
  id : String
  name : String
  category : String
  notes : String
  ingredients : List String
  steps : List String
  tags : List String
  dateAdded : String
  lastModified : String
deriving DecidableEq, Repr

/-- Partial field set passed to `update(id, updates)`; `none` models a key
absent from the JS `updates` object.  `lastModified` is omitted because the
merge `\x7b ...old, ...updates, lastModified: date \x7d` overwrites it after
the spread regardless of `updates`. -/
structure RecipeUpdate where
  id : Option String := none
  name : Option String := none
  category : Option String := none
  notes : Option String := none
  ingredients : Option (List String) := none
  steps : Option (List String) := none
  tags : Option (List String) := none
  dateAdded : Option String := none
deriving DecidableEq, Repr

/-- The JS shallow merge `\x7b ...r, ...u \x7d` restricted to the modelled keys. -/
def applyUpdate (r : Recipe) (u : RecipeUpdate) : Recipe :=
  { id := u.id.getD r.id
    name := u.name.getD r.name
    category := u.category.getD r.category
    notes := u.notes.getD r.notes
    ingredients := u.ingredients.getD r.ingredients
    steps := u.steps.getD r.steps
    tags := u.tags.getD r.tags
    dateAdded := u.dateAdded.getD r.dateAdded
    lastModified := r.lastModified }

/-- The collection document `this._data`: `\x7b version, recipes \x7d`. -/
structure DBData where
  version : String
  recipes : List Recipe
deriving DecidableEq, Repr

/-- Side effects performed by a store operation: number of `_persist()`
calls (localStorage snapshot writes) and number of `_syncToGitHub()`
attempts (remote writes started, whatever their outcome). -/
structure Effects where
  persists : Nat
  syncAttempts : Nat
deriving DecidableEq, Repr

/-- The JS return object `\x7b ...recipe, _syncOk, _syncError? \x7d`. -/
structure SyncAnnotated where
  record : Recipe
  syncOk : Bool
  syncError : Option String
deriving DecidableEq, Repr

namespace RecipeDB

/-- `getById(id)`: first record with a matching id, else `null`. -/
def getById (db : DBData) (id : String) : Option Recipe :=
  db.recipes.find? (fun r => r.id = id)

/-- The id/dateAdded stamping performed at the top of `add(recipe)`:
`if (!recipe.id) recipe.id = this._genId();
 recipe.dateAdded = recipe.dateAdded || today`. -/
def stampAdd (recipe : Recipe) (genId today : String) : Recipe :=
  let r1 := if recipe.id = "" then { recipe with id := genId } else recipe
  if r1.dateAdded = "" then { r1 with dateAdded := today } else r1

/-- `add(recipe)` (later revision, db.js): stamp, push, persist, then try
the remote write; its outcome (`sync`) is caught and reported on the
returned record as `_syncOk`/`_syncError`, never rolled back locally. -/
def add (db : DBData) (recipe : Recipe) (genId today : String)
    (sync : Except String Unit) : SyncAnnotated × DBData × Effects :=
  let r := stampAdd recipe genId today
  let db' : DBData := { db with recipes := db.recipes ++ [r] }
  match sync with
  | .ok _ => ({ record := r, syncOk := true, syncError := none }, db', ⟨1, 1⟩)
  | .error e => ({ record := r, syncOk := false, syncError := some e }, db', ⟨1, 1⟩)

/-- `findIndex` + in-place assignment: rewrite the first element
satisfying `p` with `f`, returning the new list and the rewritten
element; `none` when no element matches. -/
def setFirst (p : Recipe → Bool) (f : Recipe → Recipe) :
    List Recipe → Option (List Recipe × Recipe)
  | [] => none
  | r :: rest =>
    if p r then some (f r :: rest, f r)
    else
      match setFirst p f rest with
      | none => none
      | some (rest', m) => some (r :: rest', m)

/-- `update(id, updates)` (later revision): not-found returns `null`
without touching anything; otherwise shallow-merge, stamp `lastModified`,
persist, attempt the remote write and report its outcome. -/
def update (db : DBData) (id : String) (u : RecipeUpdate) (today : String)
    (sync : Except String Unit) : Option SyncAnnotated × DBData × Effects :=
  match setFirst (fun r => r.id = id)
      (fun r => { applyUpdate r u with lastModified := today }) db.recipes with
  | none => (none, db, ⟨0, 0⟩)
  | some (rs, m) =>
    match sync with
    | .ok _ => (some { record := m, syncOk := true, syncError := none },
        { db with recipes := rs }, ⟨1, 1⟩)
    | .error e => (some { record := m, syncOk := false, syncError := some e },
        { db with recipes := rs }, ⟨1, 1⟩)

/-- `saveNote(id, notes)`: not-found returns immediately; otherwise set
`notes` and `lastModified` on the record, persist, and start a
fire-and-forget remote write whose outcome is swallowed (`.catch(noop)`),
so no sync parameter appears. -/
def saveNote (db : DBData) (id notes today : String) : DBData × Effects :=
  match setFirst (fun r => r.id = id)
      (fun r => { r with notes := notes, lastModified := today }) db.recipes with
  | none => (db, ⟨0, 0⟩)
  | some (rs, _) => ({ db with recipes := rs }, ⟨1, 1⟩)

/-- A parsed import payload: `JSON.parse` of the argument of
`importJSON` — a bare array, a full document (anything else behaves as a
document with `imported.recipes || []`), or a parse failure caught by the
surrounding `try`. -/
inductive ImportPayload where
  | arr (rs : List Recipe)
  | doc (version : String) (rs : List Recipe)
  | malformed (msg : String)
deriving DecidableEq, Repr

/-- The object returned by `importJSON`. -/
inductive ImportOutcome where
  | ok (count : Nat)
  | failed (msg : String)
deriving DecidableEq, Repr

/-- JS `Map.prototype.set`: update the value in place when the key is
present (keeping its position), otherwise append the new entry. -/
def mapSet (m : List (String × Recipe)) (k : String) (v : Recipe) :
    List (String × Recipe) :=
  if m.any (fun p => p.1 = k) then
    m.map (fun p => if p.1 = k then (k, v) else p)
  else m ++ [(k, v)]

/-- `new Map(recipes.map(r => [r.id, r]))`: sequential insertion. -/
def buildMap (rs : List Recipe) : List (String × Recipe) :=
  rs.foldl (fun m r => mapSet m r.id r) []

/-- The merge body of `importJSON`: build the id-keyed map of the existing
collection, `set` every incoming record, and adopt the map's values. -/
def importMerge (db : DBData) (incoming : List Recipe) :
    ImportOutcome × DBData × Effects :=
  let m := incoming.foldl (fun m r => mapSet m r.id r) (buildMap db.recipes)
  (.ok incoming.length, { db with recipes := m.map (fun p => p.2) }, ⟨1, 0⟩)

/-- `importJSON(jsonStr)` on the parsed payload. -/
def importJSON (db : DBData) (p : ImportPayload) :
    ImportOutcome × DBData × Effects :=
  match p with
  | .malformed msg => (.failed msg, db, ⟨0, 0⟩)
  | .arr rs => importMerge db rs
  | .doc _ rs => importMerge db rs

/-- `exportJSON()` serializes `this._data`; `JSON.parse ∘ JSON.stringify`
is the identity on the document, so the exported string is modelled by the
document payload it parses back to. -/
def exportJSON (db : DBData) : ImportPayload :=
  .doc db.version db.recipes

end RecipeDB

/-! ## JavaScript value model for the scraper

The scraper manipulates values produced by `JSON.parse` plus the
`undefined` that property access on a missing key yields. -/

inductive Json where
  | null
  | undefined
  | bool (b : Bool)
  | num (n : Int)
  | str (s : String)
  | arr (elems : List Json)
  | obj (fields : List (String × Json))
deriving Repr

/-- JS falsiness for the values that occur here (`NaN` cannot arise). -/
def jsFalsy : Json → Bool
  | .null | .undefined | .bool false => true
  | .num n => n = 0
  | .str s => s = ""
  | _ => false

def jsTruthy (v : Json) : Bool := !jsFalsy v

/-- Property read on a field list (`JSON.parse` deduplicates object keys,
so field lists have unique keys); a missing key reads as `undefined`. -/
def getF : List (String × Json) → String → Json
  | [], _ => .undefined
  | (k, v) :: rest, key => if k = key then v else getF rest key

/-- Property read on any value.  On non-objects (arrays included, whose
numeric indices none of the embedded reads use) the named properties the
code reads are all absent, so the read yields `undefined`.  The one
unguarded read on `null` in the source is modelled explicitly at its call
site (`parseInstrOne`). -/
def Json.get : Json → String → Json
  | .obj fs, k => getF fs k
  | _, _ => .undefined

/-- `_toArray(v)`: `if (!v) return []; return Array.isArray(v) ? v : [v]`. -/
def jsToArray (v : Json) : List Json :=
  if jsFalsy v then [] else match v with | .arr xs => xs | _ => [v]

/-- `a || b`. -/
def jsOr (a b : Json) : Json := if jsTruthy a then a else b

mutual
/-- JS `String(v)` coercion for the values that occur here. -/
def jsToString : Json → String
  | .null => "null"
  | .undefined => "undefined"
  | .bool true => "true"
  | .bool false => "false"
  | .num n => toString n
  | .str s => s
  | .obj _ => "[object Object]"
  | .arr xs => String.intercalate "," (jsToStringElems xs)

/-- Stringify array elements for `Array.prototype.join`: `null` and
`undefined` elements become the empty string. -/
def jsToStringElems : List Json → List String
  | [] => []
  | .null :: rest => "" :: jsToStringElems rest
  | .undefined :: rest => "" :: jsToStringElems rest
  | x :: rest => jsToString x :: jsToStringElems rest
end

/-- `Array.prototype.join(sep)`. -/
def jsJoin (sep : String) (xs : List Json) : String :=
  String.intercalate sep (jsToStringElems xs)

/-! ### String helpers: trim, case, split, tag stripping, substring search

The Lean core `String` functions (`trim`, `toLower`, `splitOn`, ...) are
compiled by well-founded recursion and do not reduce inside the kernel,
so the embedding uses structural char-list equivalents throughout; the
only behavioural deviation is that JS `trim`/`\s` cover a few exotic
Unicode spaces beyond `Char.isWhitespace`, which no claim exercises. -/

/-- `String.prototype.trim`. -/
def jsTrim (s : String) : String :=
  String.mk
    (((s.toList.dropWhile Char.isWhitespace).reverse.dropWhile
        Char.isWhitespace).reverse)

/-- `String.prototype.toLowerCase` (the inputs here are ASCII). -/
def jsToLower (s : String) : String :=
  String.mk (s.toList.map Char.toLower)

def splitOnCharAux (sep : Char) (cur : List Char) : List Char → List String
  | [] => [String.mk cur.reverse]
  | c :: rest =>
    if c = sep then String.mk cur.reverse :: splitOnCharAux sep [] rest
    else splitOnCharAux sep (c :: cur) rest

/-- `String.prototype.split` on a single-character separator. -/
def splitOnChar (sep : Char) (s : String) : List String :=
  splitOnCharAux sep [] s.toList

/-- One pass of `.replace(/<[^>]+>/g, '')`.  `acc` is the reversed output;
`pending = some buf` means a `<` was seen and `buf` (reversed) are the
non-`>` characters read since: a `>` then closes the tag and drops it,
except that `<>` has an empty body, which the regex does not match, so
both characters are emitted; an unclosed `<` at the end is emitted with
its buffer verbatim. -/
def stripTagsGo (acc : List Char) : Option (List Char) → List Char → List Char
  | none, [] => acc.reverse
  | some buf, [] => acc.reverse ++ '<' :: buf.reverse
  | none, c :: rest =>
    if c = '<' then stripTagsGo acc (some []) rest
    else stripTagsGo (c :: acc) none rest
  | some [], c :: rest =>
    if c = '>' then stripTagsGo ('>' :: '<' :: acc) none rest
    else stripTagsGo acc (some [c]) rest
  | some (b :: bs), c :: rest =>
    if c = '>' then stripTagsGo acc none rest
    else stripTagsGo acc (some (c :: b :: bs)) rest

def stripTags (s : String) : String := String.mk (stripTagsGo [] none s.toList)

/-- `_str(v)`: falsy values to `''`; strings are tag-stripped and trimmed;
objects carrying a truthy `@value` are coerced from it; anything else is
`String(v).trim()`. -/
def jsStr (v : Json) : String :=
  if jsFalsy v then "" else
  match v with
  | .str s => jsTrim (stripTags s)
  | .obj fs =>
    if jsTruthy (getF fs "@value") then jsTrim (jsToString (getF fs "@value"))
    else jsTrim (jsToString (.obj fs))
  | v' => jsTrim (jsToString v')

/-- Fixed-window wildcard match: `.` matches any character but newline
(the only regex metacharacter besides `|` appearing in the classifier's
patterns), other characters match themselves. -/
def wildAt : List Char → List Char → Bool
  | [], _ => true
  | _ :: _, [] => false
  | p :: ps, c :: cs => (if p = '.' then c != '\n' else p == c) && wildAt ps cs

/-- Does the pattern match anywhere in the text? -/
def wildFind (p : List Char) : List Char → Bool
  | [] => p.isEmpty
  | c :: cs => wildAt p (c :: cs) || wildFind p cs

/-- `String.prototype.includes` (no wildcards in the needles used). -/
def containsSub (needle hay : String) : Bool :=
  wildFind needle.toList hay.toList

/-! ### Numeric parsing: `parseInt`, `_parseCalNum` -/

def natOfDigits (ds : List Char) : Nat :=
  ds.foldl (fun n c => 10 * n + (c.toNat - '0'.toNat)) 0

def isHexDigitChar (c : Char) : Bool :=
  c.isDigit || ('a' ≤ c && c ≤ 'f') || ('A' ≤ c && c ≤ 'F')

def hexDigitVal (c : Char) : Nat :=
  if c.isDigit then c.toNat - '0'.toNat
  else if 'a' ≤ c ∧ c ≤ 'f' then c.toNat - 'a'.toNat + 10
  else c.toNat - 'A'.toNat + 10

def natOfHexDigits (ds : List Char) : Nat :=
  ds.foldl (fun n c => 16 * n + hexDigitVal c) 0

def decDigitsVal (cs : List Char) : Option Nat :=
  let ds := cs.takeWhile Char.isDigit
  if ds.isEmpty then none else some (natOfDigits ds)

def hexDigitsVal (cs : List Char) : Option Nat :=
  let hs := cs.takeWhile isHexDigitChar
  if hs.isEmpty then none else some (natOfHexDigits hs)

/-- Magnitude part of `parseInt` with no radix argument: a `0x`/`0X`
prefix switches to hexadecimal, otherwise the longest leading decimal
digit run; no digits means `NaN` (`none`). -/
def parseIntDigits (cs : List Char) : Option Nat :=
  match cs with
  | c0 :: c1 :: rest =>
    if c0 = '0' ∧ (c1 = 'x' ∨ c1 = 'X') then hexDigitsVal rest else decDigitsVal cs
  | _ => decDigitsVal cs

/-- JS `parseInt(s)`: skip leading whitespace, optional sign, then the
leading integer literal; `none` models `NaN`. -/
def jsParseInt (s : String) : Option Int :=
  match s.toList.dropWhile (fun c => c.isWhitespace) with
  | [] => none
  | c :: rest =>
    if c = '-' then (parseIntDigits rest).map (fun n => -(n : Int))
    else if c = '+' then (parseIntDigits rest).map (fun n => (n : Int))
    else (parseIntDigits (c :: rest)).map (fun n => (n : Int))

/-- `_parseServings(raw)`: falsy input defaults to 4; otherwise the value
(or its array form) is joined with spaces and handed to `parseInt`, with
`NaN` defaulting to 4. -/
def parseServings (raw : Json) : Int :=
  if jsFalsy raw then 4 else
  match jsParseInt (jsJoin " " (jsToArray raw)) with
  | some n => n
  | none => 4

/-- Scan for the first `/(\d+(\.\d+)?)/` match and round it.
`Math.round(parseFloat(m))` is modelled by decimal rounding: round up
exactly when the first fraction digit is at least 5 (float-representation
artifacts on adversarial long decimals are out of scope). -/
def calNumFrom : List Char → Option Nat
  | [] => none
  | c :: rest =>
    if c.isDigit then
      let ds := (c :: rest).takeWhile Char.isDigit
      let tail0 := (c :: rest).drop ds.length
      let n := natOfDigits ds
      some (match tail0 with
        | '.' :: d :: _ => if d.isDigit ∧ '5' ≤ d then n + 1 else n
        | _ => n)
    else calNumFrom rest

/-- `_parseCalNum(str)`. -/
def parseCalNum (v : Json) : Int :=
  if jsFalsy v then 0 else
  match calNumFrom (jsToString v).toList with
  | some n => (n : Int)
  | none => 0

/-- `_parseImage(img)`: string as-is; arrays use `img[0]?.url || img[0]
|| ''`; otherwise `img.url || ''` (which on non-objects reads
`undefined`, giving `''`). -/
def parseImage (img : Json) : Json :=
  if jsFalsy img then .str "" else
  match img with
  | .str s => .str s
  | .arr [] => .str ""
  | .arr (x :: _) =>
    let u := match x with
      | .obj fs => getF fs "url"
      | _ => Json.undefined
    if jsTruthy u then u else if jsTruthy x then x else .str ""
  | .obj fs => if jsTruthy (getF fs "url") then getF fs "url" else .str ""
  | _ => .str ""

/-! ### Nutrition, tags, instructions -/

/-- The alias table of `_parseNutrition`, in its iteration order. -/
def nutritionAliases : List (String × List String) :=
  [("calories", ["calories", "calories"]),
   ("fat", ["fatContent", "totalFat"]),
   ("saturatedFat", ["saturatedFatContent", "saturatedFat"]),
   ("carbs", ["carbohydrateContent", "totalCarbohydrate"]),
   ("fiber", ["fiberContent", "dietaryFiber"]),
   ("sugar", ["sugarContent", "sugars"]),
   ("protein", ["proteinContent", "protein"]),
   ("sodium", ["sodiumContent", "sodium"])]

/-- JS property assignment `o[k] = v`: overwrite in place, else append. -/
def objSet (fs : List (String × Json)) (k : String) (v : Json) :
    List (String × Json) :=
  if fs.any (fun p => p.1 = k) then fs.map (fun p => if p.1 = k then (k, v) else p)
  else fs ++ [(k, v)]

/-- `_parseNutrition(nut)`: for each canonical key take `_str` of the
first truthy alias; then, when a truthy `calories` entry exists, replace
it by `_parseCalNum` of it.  Non-object input (and arrays, on which every
alias lookup reads `undefined`) gives the empty map. -/
def parseNutrition (nut : Json) : List (String × Json) :=
  match nut with
  | .obj fs =>
    let result := nutritionAliases.foldl (fun acc kv =>
      match kv.2.find? (fun a => jsTruthy (getF fs a)) with
      | some a => acc ++ [(kv.1, Json.str (jsStr (getF fs a)))]
      | none => acc) []
    let cal := getF result "calories"
    if jsTruthy cal then objSet result "calories" (Json.num (parseCalNum cal))
    else result
  | _ => []

/-- A JS runtime exception escaping the scraper. -/
inductive JsErr where
  | typeError (msg : String)
deriving DecidableEq, Repr

/-- Keep first occurrences, as iterating a `Set` does. -/
def dedupFirstAux (seen : List String) : List String → List String
  | [] => []
  | x :: rest =>
    if seen.contains x then dedupFirstAux seen rest
    else x :: dedupFirstAux (x :: seen) rest

def dedupFirst (xs : List String) : List String := dedupFirstAux [] xs

/-- `_parseTags(keywords, category, cuisine)`.  An array of keywords is
used as-is, so `k.trim()` throws a `TypeError` on any non-string element;
a non-array keywords value is stringified and split on commas. -/
def parseTags (keywords category cuisine : Json) : Except JsErr (List String) := do
  let kws ← if jsTruthy keywords then
      match keywords with
      | .arr ks => ks.mapM (fun k =>
          match k with
          | .str s => Except.ok s
          | .null => Except.error (JsErr.typeError
              "Cannot read properties of null (reading trim)")
          | .undefined => Except.error (JsErr.typeError
              "Cannot read properties of undefined (reading trim)")
          | _ => Except.error (JsErr.typeError "k.trim is not a function"))
      | kv => Except.ok (splitOnChar ',' (jsToString kv))
    else Except.ok []
  let tags0 := (kws.map (fun k => jsToLower (jsTrim k))).filter
      (fun k => k.length < 25 ∧ k ≠ "")
  let tags1 := tags0 ++
    (if jsTruthy category then [jsToLower (jsTrim (jsToString category))] else [])
  let tags2 := tags1 ++
    (if jsTruthy cuisine then [jsToLower (jsTrim (jsToString cuisine))] else [])
  pure ((dedupFirst tags2).take 6)

/-- The `else` branch of an instruction object (no truthy
`itemListElement`): `_str(item.text || item.name || '')` kept when
nonempty. -/
def instrTextPath (fs : List (String × Json)) : Except JsErr (List String) :=
  let t := jsStr (jsOr (getF fs "text") (jsOr (getF fs "name") (.str "")))
  .ok (if t = "" then [] else [t])

mutual
/-- `_parseInstructions(inst)`.  The JS body is `if (!inst) return [];`
then a loop over `_toArray(inst)`, so a non-array value is processed as
the single loop item; the per-constructor cases below fuse the falsy
check with that single-item processing (falsy non-strings yield `[]`
directly, the empty string yields `[]` through the emptiness filter, and
truthy numbers/booleans are skipped by the loop's `typeof` tests — the
same `[]`).  The recursion into `itemListElement` is fused with the
property lookup (`instrLookup`) so that it is structural. -/
def parseInstructions : Json → Except JsErr (List String)
  | .arr items => parseInstrItems items
  | .str s =>
    let c := jsTrim (stripTags s)
    .ok (if c = "" then [] else [c])
  | .obj fs =>
    match instrLookup fs with
    | some r => r
    | none => instrTextPath fs
  | _ => .ok []

def parseInstrItems : List Json → Except JsErr (List String)
  | [] => .ok []
  | item :: rest => do
    let hd ← parseInstrOne item
    let tl ← parseInstrItems rest
    pure (hd ++ tl)

/-- One loop iteration of `_parseInstructions`: strings are tag-stripped
and trimmed; a `null` element has `typeof null === "object"`, so the code
dereferences it and throws; objects with a truthy `itemListElement`
(HowToSection) recurse, other objects take the text/name path; arrays
reach the object branch but both property reads give `undefined`, and
numbers/booleans are skipped. -/
def parseInstrOne : Json → Except JsErr (List String)
  | .str s =>
    let c := jsTrim (stripTags s)
    .ok (if c = "" then [] else [c])
  | .null => .error (JsErr.typeError
      "Cannot read properties of null (reading itemListElement)")
  | .obj fs =>
    match instrLookup fs with
    | some r => r
    | none => instrTextPath fs
  | _ => .ok []

/-- `item.itemListElement` read fused with the recursion on its value:
`some` exactly when the (unique) key is present with a truthy value. -/
def instrLookup : List (String × Json) → Option (Except JsErr (List String))
  | [] => none
  | (k, v) :: rest =>
    if k = "itemListElement" then
      (if jsTruthy v then some (parseInstructions v) else none)
    else instrLookup rest
end

/-! ### Category classifier -/

/-- The ordered rule table of `_guessCategory`, keyword patterns kept in
their source regex form (`|` alternation, `.` wildcard). -/
def categoryRules : List (String × String) :=
  [("soups", "soup|stew|chowder|broth|bisque|chili"),
   ("pasta", "pasta|spaghetti|penne|fettuccine|rigatoni|linguine|lasagna|noodle|macaroni|tagliatelle|gnocchi|orzo"),
   ("mexican", "taco|fajita|burrito|enchilada|quesadilla|salsa|guacamole|mexican|tex.mex|chimichanga"),
   ("asian", "stir.fry|fried rice|ramen|pho|pad thai|sushi|teriyaki|korean|chinese|japanese|thai|vietnamese|asian|wok"),
   ("seafood", "salmon|shrimp|fish|tuna|cod|halibut|tilapia|lobster|crab|scallop|seafood|prawn|clam|mussel"),
   ("salads", "salad|bowl|grain bowl|buddha bowl"),
   ("breakfast", "breakfast|brunch|egg|omelette|pancake|waffle|french toast|shakshuka|frittata|quiche"),
   ("desserts", "cake|cookie|brownie|pie|tart|dessert|sweet|chocolate|ice cream|pudding|muffin|cupcake"),
   ("pizza", "pizza|flatbread|focaccia|calzone"),
   ("casseroles", "casserole|bake|gratin|lasagna|pot pie"),
   ("meat", "chicken|beef|pork|lamb|turkey|steak|roast|meatball|meatloaf|wing|rib|cutlet|tenderloin"),
   ("vegetables", "vegetable|veggie|vegan|side dish|roasted veg|cauliflower|broccoli|asparagus|green bean")]

/-- `re.test(text)` for the alternation-of-literals patterns above. -/
def reTest (pat : String) (text : String) : Bool :=
  (splitOnChar '|' pat).any (fun alt => wildFind alt.toList text.toList)

/-- `_guessCategory(rawCat, cuisine, name, ingredients)`. -/
def guessCategory (rawCat cuisine name : String) (ingredients : List String) :
    String :=
  let text := jsToLower (rawCat ++ " " ++ cuisine ++ " " ++ name ++ " " ++
    String.intercalate " " ingredients)
  match categoryRules.find? (fun rule => reTest rule.2 text) with
  | some rule => rule.1
  | none => "meat"

/-- The category taxonomy (db.js `CATEGORIES`): key, label, emoji. -/
def CATEGORIES : List (String × String × String) :=
  [("soups", "Soups & Stews", "🍜"),
   ("pasta", "Pasta & Noodles", "🍝"),
   ("salads", "Salads", "🥗"),
   ("meat", "Meat & Poultry", "🍖"),
   ("seafood", "Seafood", "🐟"),
   ("vegetables", "Vegetables & Sides", "🥦"),
   ("casseroles", "Casseroles & Bakes", "🥘"),
   ("mexican", "Mexican & Tex-Mex", "🌮"),
   ("asian", "Asian Cuisine", "🍱"),
   ("breakfast", "Breakfast & Brunch", "🥐"),
   ("pizza", "Pizza & Flatbreads", "🍕"),
   ("desserts", "Desserts & Sweets", "🎂")]

/-- `_categoryEmoji(cat)`. -/
def categoryEmoji (cat : String) : String :=
  match CATEGORIES.find? (fun c => c.1 = cat) with
  | some c => c.2.2
  | none => "🍽️"

/-! ### Duration parsing -/

/-- One optional regex group `(\d+)H` (resp. `M`): succeeds only when a
nonempty digit run is immediately followed by the marker; otherwise the
group is absent and no input is consumed. -/
def grabGroup (cs : List Char) (marker : Char) : Option Nat × List Char :=
  let ds := cs.takeWhile Char.isDigit
  if ds.isEmpty then (none, cs)
  else
    match cs.drop ds.length with
    | c :: rest' =>
      if c = marker then (some (natOfDigits ds), rest') else (none, cs)
    | [] => (none, cs)

/-- `String(iso).match(/PT(?:(\d+)H)?(?:(\d+)M)?/)`: the regex matches at
the first literal `PT`, both groups optional. `none` models a null match. -/
def findPT : List Char → Option (Option Nat × Option Nat)
  | [] => none
  | 'P' :: 'T' :: rest =>
    let hr := grabGroup rest 'H'
    some (hr.1, (grabGroup hr.2 'M').1)
  | _ :: rest => findPT rest

/-- `_parseDuration` on a string: `parseInt(m[1] || '0')` etc., then the
three display formats, falling back to the original text. -/
def parseDurationStr (s : String) : String :=
  if s = "" then "" else
  match findPT s.toList with
  | none => s
  | some (hOpt, mOpt) =>
    let h := hOpt.getD 0
    let mn := mOpt.getD 0
    if h > 0 ∧ mn > 0 then toString h ++ "h " ++ toString mn ++ " min"
    else if h > 0 then toString h ++ " hr"
    else if mn > 0 then toString mn ++ " min"
    else s

/-- `_parseDuration(iso)` on the raw JSON-LD value. -/
def parseDuration (v : Json) : String :=
  if jsFalsy v then "" else parseDurationStr (jsToString v)

/-! ### JSON-LD node selection and normalization -/

/-- `_isRecipe(node)`: a truthy object whose `@type` (or one of its array
elements) contains "recipe" case-insensitively.  Arrays pass the JS
`typeof` guard but their `@type` read is `undefined`, so they fail the
type check all the same. -/
def isRecipeNode (node : Json) : Bool :=
  match node with
  | .obj fs =>
    let type := getF fs "@type"
    if jsFalsy type then false
    else (jsToArray type).any (fun t => containsSub "recipe" (jsToLower (jsToString t)))
  | _ => false

/-- Candidate nodes of one parsed ld+json block: an array is its own node
list, a value with a truthy array `@graph` contributes the graph, and
anything else is a single node.  A truthy non-array `@graph` makes the
`for...of` throw inside the surrounding `try`, so the block contributes
nothing — as does a `null` block, whose `@graph` read throws there too. -/
def ldNodes (parsed : Json) : List Json :=
  match parsed with
  | .arr xs => xs
  | .null => []
  | v =>
    if jsTruthy (v.get "@graph") then
      match v.get "@graph" with
      | .arr xs => xs
      | _ => []
    else [v]

/-- `_extractJsonLD`: first recipe node across all blocks, else `null`. -/
def extractJsonLD (blocks : List Json) : Option Json :=
  (List.flatten (blocks.map (fun b => (ldNodes b).filter isRecipeNode))).head?

/-- The canonical scraper result shape.  `description` is `none` on the
failure skeleton, which carries no such key. -/
structure ScrapeResult where
  scrapeOk : Bool
  name : String
  description : Option String
  category : String
  emoji : String
  calories : Int
  servings : Int
  prepTime : String
  cookTime : String
  totalTime : String
  source : String
  thumbnail : Json
  ingredients : List String
  steps : List String
  nutrition : List (String × Json)
  tags : List String
  notes : String
deriving Repr

/-- `_normalizeJsonLD(data, sourceUrl)`, in source statement order (so the
first JS exception — from `_parseInstructions` or `_parseTags` — is the
one reported).  `scrapeOk` is false here; `scrape` sets it on acceptance. -/
def normalizeJsonLD (data : Json) (sourceUrl : String) :
    Except JsErr ScrapeResult := do
  let name := jsStr (data.get "name")
  let description := jsStr (data.get "description")
  let ingredients := ((jsToArray (data.get "recipeIngredient")).map jsStr).filter
      (fun s => s ≠ "")
  let steps ← parseInstructions (data.get "recipeInstructions")
  let nutrition0 := parseNutrition (data.get "nutrition")
  let calJson := jsOr (jsOr (getF nutrition0 "calories")
      (Json.num (parseCalNum (Json.str (jsStr (data.get "calories"))))))
      (Json.num 0)
  let calories : Int := match calJson with | .num n => n | _ => 0
  let nutrition := objSet nutrition0 "calories" (Json.num calories)
  let prepTime := parseDuration (data.get "prepTime")
  let cookTime := parseDuration (data.get "cookTime")
  let totalTime := parseDuration (data.get "totalTime")
  let servings := parseServings (jsOr (data.get "recipeYield") (data.get "yield"))
  let image := parseImage (data.get "image")
  let category := guessCategory (jsStr (data.get "recipeCategory"))
      (jsStr (data.get "recipeCuisine")) name ingredients
  let emoji := categoryEmoji category
  let tags ← parseTags (data.get "keywords") (data.get "recipeCategory")
      (data.get "recipeCuisine")
  pure { scrapeOk := false, name, description := some description, category, emoji,
         calories, servings, prepTime, cookTime, totalTime, source := sourceUrl,
         thumbnail := image, ingredients, steps, nutrition, tags, notes := "" }

/-! ### Fetched page model and heuristic extraction

`_fetchViaProxy` either fails every relay (`null`) or delivers HTML; a
delivered page is modelled by the observations the two extraction stages
make of it: the successfully `JSON.parse`d ld+json script bodies in
document order, the meta/h1 texts (`_metaContent` returns `''` when the
tag is absent; `h1Text` is `none` when the document has no `h1`), and the
text contents of the ingredient- and step-matching elements. -/

structure Page where
  ldBlocks : List Json
  ogTitle : String
  ogDescription : String
  metaDescription : String
  ogImage : String
  h1Text : Option String
  ingredientTexts : List String
  stepTexts : List String

/-- `_heuristicExtract(html, url)`. -/
def heuristicExtract (pg : Page) (url : String) : ScrapeResult :=
  let rawName := if pg.ogTitle ≠ "" then pg.ogTitle
    else match pg.h1Text with
      | some t => if t ≠ "" then t else "Unknown Recipe"
      | none => "Unknown Recipe"
  let name := jsTrim rawName
  let description :=
    jsTrim (if pg.ogDescription ≠ "" then pg.ogDescription else pg.metaDescription)
  let ingredients := (pg.ingredientTexts.map jsTrim).filter (fun s => s ≠ "")
  let steps := (pg.stepTexts.map jsTrim).filter (fun s => s ≠ "")
  let category := guessCategory "" "" name ingredients
  { scrapeOk := false, name, description := some description, category,
    emoji := categoryEmoji category, calories := 0, servings := 4,
    prepTime := "", cookTime := "", totalTime := "", source := url,
    thumbnail := .str pg.ogImage, ingredients, steps, nutrition := [],
    tags := [], notes := "" }

/-! ### Title from URL and the failure skeleton -/

/-- The remainder after the first `://`, or `none` when there is none. -/
def afterProtocol : List Char → Option (List Char)
  | [] => none
  | ':' :: '/' :: '/' :: rest => some rest
  | _ :: rest => afterProtocol rest

/-- Model of the host `new URL(url).pathname` for the common
`scheme://host/path?query#fragment` shape; inputs with no `://` or an
empty scheme make the constructor throw (`none`). -/
def urlPathname (url : String) : Option String :=
  match url.toList with
  | [] => none
  | ':' :: _ => none
  | cs =>
    match afterProtocol cs with
    | none => none
    | some after =>
      let tail0 := after.dropWhile (fun c => c != '/' && c != '?' && c != '#')
      let path := tail0.takeWhile (fun c => c != '?' && c != '#')
      some (if path.isEmpty then "/" else String.mk path)

/-- `.replace(/\.[a-z]+$/, '')`. -/
def dropLetterExt (s : String) : String :=
  let rev := s.toList.reverse
  let letters := rev.takeWhile (fun c => 'a' ≤ c && c ≤ 'z')
  if letters.isEmpty then s else
    match rev.drop letters.length with
    | '.' :: restRev => String.mk restRev.reverse
    | _ => s

/-- `.replace(/[-_]+/g, ' ')`: each run of hyphens/underscores becomes a
single space (`prevSep` records being inside a run). -/
def squashDashes (prevSep : Bool) : List Char → List Char
  | [] => []
  | c :: rest =>
    if c = '-' || c = '_' then
      (if prevSep then [] else [' ']) ++ squashDashes true rest
    else c :: squashDashes false rest

def isWordChar (c : Char) : Bool :=
  ('a' ≤ c && c ≤ 'z') || ('A' ≤ c && c ≤ 'Z') || c.isDigit || c = '_'

/-- `.replace(/\b\w/g, c => c.toUpperCase())`: uppercase each word
character at a word boundary. -/
def titleCaseAux (prevWord : Bool) : List Char → List Char
  | [] => []
  | c :: rest =>
    (if isWordChar c && !prevWord then c.toUpper else c) ::
      titleCaseAux (isWordChar c) rest

/-- `_titleFromUrl(url)`: last nonempty path segment, extension dropped,
separators spaced, title-cased, trimmed; `''` when `new URL` throws. -/
def titleFromUrl (url : String) : String :=
  match urlPathname url with
  | none => ""
  | some pathname =>
    let slug := ((splitOnChar '/' pathname).filter (fun s => s ≠ "")).getLast?.getD ""
    jsTrim (String.mk (titleCaseAux false
      (squashDashes false (dropLetterExt slug).toList)))

/-- The stage-4 failure skeleton of `scrape`. -/
def skeletonResult (url : String) : ScrapeResult :=
  { scrapeOk := false
    name := titleFromUrl url
    description := none
    category := guessCategory "" "" (titleFromUrl url) []
    emoji := ""
    calories := 0
    servings := 4
    prepTime := ""
    cookTime := ""
    totalTime := ""
    source := url
    thumbnail := .str ""
    ingredients := []
    steps := []
    nutrition := []
    tags := []
    notes := "" }

/-- `scrape(url)`: the fetch stage's outcome is the `page` argument
(`none` when every relay failed).  JSON-LD stage, then heuristic stage,
then skeleton.  `normalizeJsonLD` runs outside any `try`, so a JS
exception it raises escapes `scrape` — modelled by the `Except` error. -/
def scrape (url : String) (page : Option Page) : Except JsErr ScrapeResult := do
  match page with
  | none => pure (skeletonResult url)
  | some pg =>
    let fromLD ← (match extractJsonLD pg.ldBlocks with
      | some node => do
        let recipe ← normalizeJsonLD node url
        pure (if recipe.name ≠ "" ∧ (recipe.ingredients ≠ [] ∨ recipe.steps ≠ [])
          then some { recipe with scrapeOk := true } else none)
      | none => pure none)
    match fromLD with
    | some r => pure r
    | none =>
      let h := heuristicExtract pg url
      if h.name ≠ "" ∨ h.ingredients ≠ [] then pure { h with scrapeOk := true }
      else pure (skeletonResult url)

/-- Does the call resolve (no escaped exception)? -/
def resolves (e : Except JsErr ScrapeResult) : Bool :=
  match e with
  | .ok _ => true
  | .error _ => false

/-! ## Sample data for the concrete instantiations -/

/-- A stored record (fields in declaration order: id, name, category,
notes, ingredients, steps, tags, dateAdded, lastModified). -/
def soupRec : Recipe :=
  ⟨"a", "Soup", "soups", "old", ["x"], [], [], "2020-01-01", "2020-01-01"⟩

def soupDB : DBData := ⟨"1", [soupRec]⟩

/-- A draft record as handed to `add`: no id, no dateAdded yet. -/
def tacoDraft : Recipe := ⟨"", "Tacos", "mexican", "", [], [], [], "", ""⟩

/-- An updated revision of `soupRec` (same id) arriving via import. -/
def newSoup : Recipe := ⟨"a", "Soup2", "soups", "", [], [], [], "2024-01-01", ""⟩

/-- An import record whose id matches nothing stored. -/
def pieRec : Recipe := ⟨"b", "Pie", "desserts", "", [], [], [], "2024-01-02", ""⟩

/-- Two distinct import records sharing one id. -/
def dupB1 : Recipe := ⟨"b", "B1", "meat", "", [], [], [], "", ""⟩

def dupB2 : Recipe := ⟨"b", "B2", "meat", "", [], [], [], "", ""⟩

/-- A fetched page whose (valid JSON) ld+json block declares a Recipe with
`"recipeInstructions": [null]` — schema-invalid but parseable data that a
third-party page can serve. -/
def nullInstrPage : Page :=
  { ldBlocks := [Json.obj [("@type", Json.str "Recipe"),
                           ("name", Json.str "X"),
                           ("recipeInstructions", Json.arr [Json.null])]]
    ogTitle := ""
    ogDescription := ""
    metaDescription := ""
    ogImage := ""
    h1Text := none
    ingredientTexts := []
    stepTexts := [] }

/-! ## Helper lemmas about the store's list operations -/

theorem setFirst_eq_none {p : Recipe → Bool} {f : Recipe → Recipe}
    {l : List Recipe} (h : ∀ r ∈ l, p r = false) :
    RecipeDB.setFirst p f l = none := by
  induction l with
  | nil => rfl
  | cons r rest ih =>
    have hr := h r (List.mem_cons_self r rest)
    have ht := ih (fun x hx => h x (List.mem_cons_of_mem _ hx))
    simp [RecipeDB.setFirst, hr, ht]

theorem setFirst_eq_some {p : Recipe → Bool} {f : Recipe → Recipe}
    {pre : List Recipe} {r : Recipe} {post : List Recipe}
    (hpre : ∀ x ∈ pre, p x = false) (hr : p r = true) :
    RecipeDB.setFirst p f (pre ++ r :: post) = some (pre ++ f r :: post, f r) := by
  induction pre with
  | nil => simp [RecipeDB.setFirst, hr]
  | cons a rest ih =>
    have ha := hpre a (List.mem_cons_self a rest)
    have ht := ih (fun x hx => hpre x (List.mem_cons_of_mem _ hx))
    simp [RecipeDB.setFirst, ha, ht]

theorem find?_append_singleton {l : List Recipe} {x : Recipe} {id : String}
    (h : ∀ r ∈ l, r.id ≠ id) (hx : x.id = id) :
    (l ++ [x]).find? (fun r => r.id = id) = some x := by
  induction l with
  | nil => simp [List.find?, hx]
  | cons a rest ih =>
    have ha : (decide (a.id = id)) = false := by
      simpa using h a (List.mem_cons_self a rest)
    have ht := ih (fun r hr => h r (List.mem_cons_of_mem _ hr))
    simpa [List.find?_cons, ha] using ht

/-! ## C9 / C10: not-found mutations are no-ops -/

/-- C9 — for every collection and id absent from it, `update(id, fields)`
returns `null`, leaves the collection untouched (no record added, removed
or modified, hence no `lastModified` stamp anywhere), performs no
localStorage persist and attempts no remote write. -/
theorem update_notFound_noop (db : DBData) (id : String) (u : RecipeUpdate)
    (today : String) (sync : Except String Unit)
    (h : ∀ r ∈ db.recipes, r.id ≠ id) :
    RecipeDB.update db id u today sync = (none, db, ⟨0, 0⟩) := by
  unfold RecipeDB.update
  rw [setFirst_eq_none (fun r hr => by simpa using h r hr)]

/-- C9 witness. -/
theorem update_notFound_noop_witness :
    RecipeDB.update soupDB "zzz" {} "2025-06-01" (Except.ok ())
      = (none, soupDB, ⟨0, 0⟩) :=
  update_notFound_noop soupDB "zzz" {} "2025-06-01" (Except.ok ()) (by decide)

/-- C10 — for every collection and id absent from it, `saveNote(id, text)`
returns before any effect: the collection is unchanged, the snapshot is
not re-persisted and no remote write is started. -/
theorem saveNote_notFound_noop (db : DBData) (id text today : String)
    (h : ∀ r ∈ db.recipes, r.id ≠ id) :
    RecipeDB.saveNote db id text today = (db, ⟨0, 0⟩) := by
  unfold RecipeDB.saveNote
  rw [setFirst_eq_none (fun r hr => by simpa using h r hr)]

/-- C10 witness. -/
theorem saveNote_notFound_noop_witness :
    RecipeDB.saveNote soupDB "zzz" "note text" "2025-06-01" = (soupDB, ⟨0, 0⟩) :=
  saveNote_notFound_noop soupDB "zzz" "note text" "2025-06-01" (by decide)

/-! ## C4: `lastModified` stamping -/

/-- C4 counterexample — the claim says `saveNote` leaves `lastModified`
unchanged, but the code stamps it: on a record last modified 2020-01-01,
`saveNote` at 2025-06-01 rewrites `lastModified` to the current date
(while updating the note). -/
theorem saveNote_stamps_lastModified_cex :
    ((RecipeDB.saveNote soupDB "a" "new note" "2025-06-01").1.recipes.map
        Recipe.lastModified) = ["2025-06-01"]
    ∧ ((RecipeDB.saveNote soupDB "a" "new note" "2025-06-01").1.recipes.map
        Recipe.lastModified) ≠ soupDB.recipes.map Recipe.lastModified :=
  ⟨rfl, by decide⟩

/-- C4 (amended) — every mutating operation on a stored record stamps its
`lastModified` to the current date, `saveNote` included: `saveNote(X, text)`
rewrites exactly the `notes` and `lastModified` fields of the matched
record (its special treatment is confined to the fire-and-forget remote
write), and `update(X, fields)` merges the fields and sets `lastModified`
to the current date; all other records are untouched by both. -/
theorem mutations_stamp_lastModified (db : DBData) (pre post : List Recipe)
    (r : Recipe) (id text today : String) (u : RecipeUpdate)
    (sync : Except String Unit)
    (hpre : ∀ x ∈ pre, x.id ≠ id) (hr : r.id = id)
    (hdb : db.recipes = pre ++ r :: post) :
    (RecipeDB.saveNote db id text today).1.recipes
        = pre ++ { r with notes := text, lastModified := today } :: post
    ∧ (RecipeDB.update db id u today sync).2.1.recipes
        = pre ++ { applyUpdate r u with lastModified := today } :: post := by
  have hpre' : ∀ x ∈ pre, (decide (x.id = id)) = false :=
    fun x hx => by simpa using hpre x hx
  have hr' : (decide (r.id = id)) = true := by simpa using hr
  constructor
  · unfold RecipeDB.saveNote
    rw [hdb, setFirst_eq_some hpre' hr']
  · unfold RecipeDB.update
    rw [hdb, setFirst_eq_some hpre' hr']
    cases sync <;> rfl

/-- C4 (amended) witness. -/
theorem mutations_stamp_lastModified_witness :
    (RecipeDB.saveNote soupDB "a" "n2" "2025-06-01").1.recipes
      = [⟨"a", "Soup", "soups", "n2", ["x"], [], [], "2020-01-01", "2025-06-01"⟩]
    ∧ (RecipeDB.update soupDB "a" { name := some "Stew" } "2025-06-01"
        (Except.ok ())).2.1.recipes
      = [⟨"a", "Stew", "soups", "old", ["x"], [], [], "2020-01-01", "2025-06-01"⟩] :=
  mutations_stamp_lastModified soupDB [] [] soupRec "a" "n2" "2025-06-01"
    { name := some "Stew" } (Except.ok ()) (by simp) (by decide) rfl

/-! ## C2: remote-write failure during `add` never rolls back -/

/-- C2 — for every collection and recipe, when the remote write fails the
stamped record is still appended to the in-memory collection, `getById`
retrieves it immediately afterwards, the returned value is the stored
record annotated with `_syncOk = false` and the error detail, and the
local persist still happened (the mutation is never rolled back).  The
freshness hypothesis is the data model's id-uniqueness invariant. -/
theorem add_remoteFailure_keepsLocal (db : DBData) (recipe : Recipe)
    (genId today err : String)
    (hfresh : ∀ r ∈ db.recipes, r.id ≠ (RecipeDB.stampAdd recipe genId today).id) :
    (RecipeDB.add db recipe genId today (.error err)).2.1.recipes
        = db.recipes ++ [RecipeDB.stampAdd recipe genId today]
    ∧ RecipeDB.getById (RecipeDB.add db recipe genId today (.error err)).2.1
        (RecipeDB.stampAdd recipe genId today).id
        = some (RecipeDB.stampAdd recipe genId today)
    ∧ (RecipeDB.add db recipe genId today (.error err)).1
        = { record := RecipeDB.stampAdd recipe genId today, syncOk := false,
            syncError := some err }
    ∧ (RecipeDB.add db recipe genId today (.error err)).2.2 = ⟨1, 1⟩ := by
  refine ⟨rfl, ?_, rfl, rfl⟩
  unfold RecipeDB.getById RecipeDB.add
  exact find?_append_singleton hfresh rfl

/-- C2 witness. -/
theorem add_remoteFailure_keepsLocal_witness :
    (RecipeDB.add ⟨"1", []⟩ tacoDraft "r9xk" "2025-06-01"
        (.error "GitHub API 500: boom")).2.1.recipes
      = [⟨"r9xk", "Tacos", "mexican", "", [], [], [], "2025-06-01", ""⟩]
    ∧ RecipeDB.getById
        (RecipeDB.add ⟨"1", []⟩ tacoDraft "r9xk" "2025-06-01"
          (.error "GitHub API 500: boom")).2.1 "r9xk"
      = some ⟨"r9xk", "Tacos", "mexican", "", [], [], [], "2025-06-01", ""⟩
    ∧ (RecipeDB.add ⟨"1", []⟩ tacoDraft "r9xk" "2025-06-01"
        (.error "GitHub API 500: boom")).1
      = ⟨⟨"r9xk", "Tacos", "mexican", "", [], [], [], "2025-06-01", ""⟩,
         false, some "GitHub API 500: boom"⟩
    ∧ (RecipeDB.add ⟨"1", []⟩ tacoDraft "r9xk" "2025-06-01"
        (.error "GitHub API 500: boom")).2.2 = ⟨1, 1⟩ :=
  add_remoteFailure_keepsLocal ⟨"1", []⟩ tacoDraft "r9xk" "2025-06-01"
    "GitHub API 500: boom" (by decide)

/-! ## C1: `scrape` is NOT total — a crashing input exists -/

/-- C1 — refuting evaluation.  `scrape`'s own header comment promises it
"ALWAYS resolves — never throws", but `_parseInstructions` dereferences a
`null` array element (`typeof null === "object"`, then
`item.itemListElement` throws a TypeError), and `_normalizeJsonLD` runs
under no `try`, so the exception escapes `scrape` on a page carrying
`"recipeInstructions": [null]`. -/
theorem scrape_rejects_on_null_instruction :
    resolves (scrape "https://example.com/x" (some nullInstrPage)) = false
    ∧ scrape "https://example.com/x" (some nullInstrPage)
      = .error (JsErr.typeError
          "Cannot read properties of null (reading itemListElement)") :=
  ⟨rfl, rfl⟩

/-! ## C3: servings parsing reads only a leading integer -/

/-- C3 counterexample — the claim says the servings parser returns the
first integer token occurring anywhere in the text, so "Serves 6" should
give 6; the code's `parseInt` only reads a leading integer and falls back
to the default 4. -/
theorem parseServings_embedded_int_cex :
    parseServings (Json.str "Serves 6") = 4
    ∧ parseServings (Json.str "Serves 6") ≠ 6 :=
  ⟨rfl, by decide⟩

/-- C3 (amended) — the servings parser returns the integer at the *start*
of the joined text (JS `parseInt`: optional leading whitespace and sign,
then digits) and returns 4 when the text does not begin with an integer
or the input is absent/falsy; an integer merely embedded in the text is
ignored. -/
theorem parseServings_leading_int :
    (∀ (s : String) (c : Char) (rest : List Char),
        s.toList.dropWhile (fun c => c.isWhitespace) = c :: rest →
        c.isDigit = false → c ≠ '-' → c ≠ '+' →
        parseServings (Json.str s) = 4)
    ∧ parseServings (Json.str "6 servings") = 6
    ∧ parseServings (Json.str " 8") = 8
    ∧ parseServings (Json.arr [Json.str "12 muffins", Json.str "6"]) = 12
    ∧ parseServings Json.null = 4
    ∧ parseServings Json.undefined = 4 := by
  refine ⟨?_, rfl, rfl, rfl, rfl, rfl⟩
  intro s c rest hdrop hd hm hp
  have hs : s ≠ "" := by
    intro h
    subst h
    exact List.noConfusion hdrop
  have harr : jsToArray (Json.str s) = [Json.str s] := by
    simp [jsToArray, jsFalsy, hs]
  have hpid : parseIntDigits (c :: rest) = none := by
    have hc0 : c ≠ '0' := by
      intro h
      subst h
      exact absurd hd (by decide)
    cases rest with
    | nil => simp [parseIntDigits, decDigitsVal, List.takeWhile_cons, hd]
    | cons c1 rest' =>
      simp [parseIntDigits, hc0, decDigitsVal, List.takeWhile_cons, hd]
  have hnone : jsParseInt (jsJoin " " (jsToArray (Json.str s))) = none := by
    rw [harr]
    show jsParseInt s = none
    simp only [jsParseInt, hdrop]
    rw [if_neg hm, if_neg hp, hpid]
    rfl
  simp [parseServings, jsFalsy, hs, hnone]

/-- C3 (amended) witness. -/
theorem parseServings_leading_int_witness :
    parseServings (Json.str "abc") = 4 :=
  parseServings_leading_int.1 "abc" 'a' ['b', 'c'] (by decide) (by decide)
    (by decide) (by decide)

/-! ## C5: duration parsing -/

/-- C5 — the three specified display formats hold, and any input from
which the regex `/PT(?:(\d+)H)?(?:(\d+)M)?/` extracts no numeric group —
in particular any input with no `PT` at all — is passed through
unchanged. -/
theorem parseDuration_formats :
    parseDurationStr "PT1H30M" = "1h 30 min"
    ∧ parseDurationStr "PT45M" = "45 min"
    ∧ parseDurationStr "PT2H" = "2 hr"
    ∧ ∀ s : String,
        (∀ g, findPT s.toList = some g → g.1 = none ∧ g.2 = none) →
        parseDurationStr s = s := by
  refine ⟨rfl, rfl, rfl, ?_⟩
  intro s h
  by_cases hs : s = ""
  · subst hs; rfl
  · unfold parseDurationStr
    rw [if_neg hs]
    cases hf : findPT s.toList with
    | none => rfl
    | some g =>
      obtain ⟨g1, g2⟩ := g
      obtain ⟨h1, h2⟩ := h (g1, g2) hf
      have h1' : g1 = none := h1
      have h2' : g2 = none := h2
      subst h1'
      subst h2'
      rfl

/-- C5 witness. -/
theorem parseDuration_formats_witness :
    parseDurationStr "1 hour" = "1 hour" :=
  parseDuration_formats.2.2.2 "1 hour" (fun g hg => by
    rw [show findPT "1 hour".toList = none from by decide] at hg
    exact Option.noConfusion hg)

/-! ## C6: the category classifier is total and deterministic -/

/-- C6 — the classifier always returns one of the rule table's keys (the
no-match default "meat" is itself a key), equal inputs give equal outputs,
"taco" classifies as the Mexican category, bare "chicken" as the Meat
category, and empty text falls to the default category "meat". -/
theorem guessCategory_total :
    (∀ (rc cu n : String) (ing : List String),
        guessCategory rc cu n ing ∈ categoryRules.map Prod.fst)
    ∧ (∀ (rc cu n : String) (ing : List String),
        guessCategory rc cu n ing = guessCategory rc cu n ing)
    ∧ guessCategory "" "" "taco" [] = "mexican"
    ∧ guessCategory "" "" "chicken" [] = "meat"
    ∧ guessCategory "" "" "" [] = "meat" := by
  refine ⟨?_, fun _ _ _ _ => rfl, by decide, by decide, by decide⟩
  intro rc cu n ing
  have key : ∀ text : String,
      (match categoryRules.find? (fun rule => reTest rule.2 text) with
        | some rule => rule.1
        | none => "meat") ∈ categoryRules.map Prod.fst := by
    intro text
    cases hf : categoryRules.find? (fun rule => reTest rule.2 text) with
    | none =>
      show "meat" ∈ categoryRules.map Prod.fst
      decide
    | some rule =>
      show rule.1 ∈ categoryRules.map Prod.fst
      exact List.mem_map_of_mem Prod.fst (List.mem_of_find?_eq_some hf)
  exact key _

/-! ## C7 / C8: the import merge

The JS `Map` built by `importJSON` keeps insertion order and `set`
rewrites an existing key's value in place; the two lemmas below pin this
down for key-distinct inputs. -/

theorem map_congr_mem {α β : Type} {l : List α} {f g : α → β}
    (h : ∀ a ∈ l, f a = g a) : l.map f = l.map g := by
  induction l with
  | nil => rfl
  | cons a t ih =>
    simp only [List.map_cons, h a (List.mem_cons_self a t),
      ih (fun x hx => h x (List.mem_cons_of_mem _ hx))]

theorem any_congr_mem {α : Type} {l : List α} {p q : α → Bool}
    (h : ∀ a ∈ l, p a = q a) : l.any p = l.any q := by
  induction l with
  | nil => rfl
  | cons a t ih =>
    simp only [List.any_cons, h a (List.mem_cons_self a t),
      ih (fun x hx => h x (List.mem_cons_of_mem _ hx))]

theorem filter_congr_mem {α : Type} {l : List α} {p q : α → Bool}
    (h : ∀ a ∈ l, p a = q a) : l.filter p = l.filter q := by
  induction l with
  | nil => rfl
  | cons a t ih =>
    simp only [List.filter_cons, h a (List.mem_cons_self a t),
      ih (fun x hx => h x (List.mem_cons_of_mem _ hx))]

theorem any_map_comp {α β : Type} (l : List α) (f : α → β) (p : β → Bool) :
    (l.map f).any p = l.any (fun a => p (f a)) := by
  induction l with
  | nil => rfl
  | cons a t ih => simp [List.any_cons, ih]

/-- In an id-distinct collection, `find?` by a member's id finds exactly
that member. -/
theorem find?_self_of_nodup {rs : List Recipe} {r : Recipe}
    (h : (rs.map Recipe.id).Nodup) (hr : r ∈ rs) :
    rs.find? (fun t => t.id = r.id) = some r := by
  induction rs with
  | nil => cases hr
  | cons a t ih =>
    have h' : (∀ x ∈ t, ¬ x.id = a.id) ∧ (t.map Recipe.id).Nodup := by
      simpa using h
    obtain ⟨ha, ht⟩ := h'
    rcases List.mem_cons.mp hr with rfl | hrt
    · exact List.find?_cons_of_pos _ (by simp)
    · have hne : ¬ (a.id = r.id) := fun he => ha r hrt he.symm
      rw [List.find?_cons_of_neg _ (by simpa using hne)]
      exact ih ht hrt

/-- The fold of `Map.set` underlying `importJSON`: starting from an
id-keyed map with distinct keys and folding id-distinct incoming records,
entries whose key some incoming record matches are rewritten in place to
that record, all other entries stay, and incoming records matching no key
are appended in order. -/
theorem foldl_mapSet_spec (incoming : List Recipe) :
    ∀ m : List (String × Recipe),
    (m.map Prod.fst).Nodup → (incoming.map Recipe.id).Nodup →
    incoming.foldl (fun acc r => RecipeDB.mapSet acc r.id r) m
      = m.map (fun p => match incoming.find? (fun t => t.id = p.1) with
          | some t => (p.1, t)
          | none => p)
        ++ (incoming.filter (fun t => !(m.any (fun p => p.1 = t.id)))).map
            (fun t => (t.id, t)) := by
  induction incoming with
  | nil =>
    intro m _ _
    simp
  | cons x rest ih =>
    intro m hm hinc
    have hpair : (∀ t ∈ rest, ¬ t.id = x.id) ∧ (rest.map Recipe.id).Nodup := by
      simpa using hinc
    obtain ⟨hxrest, hrest⟩ := hpair
    have hnone : rest.find? (fun t => t.id = x.id) = none := by
      rw [List.find?_eq_none]
      intro t ht
      simpa using hxrest t ht
    rw [List.foldl_cons]
    cases hmem : m.any (fun p => p.1 = x.id) with
    | true =>
      have hset : RecipeDB.mapSet m x.id x
          = m.map (fun p => if p.1 = x.id then (x.id, x) else p) := by
        simp [RecipeDB.mapSet, hmem]
      have hf1 : ∀ p : String × Recipe,
          ((if p.1 = x.id then (x.id, x) else p) : String × Recipe).1 = p.1 := by
        intro p
        by_cases h : p.1 = x.id
        · simp [h]
        · simp [h]
      have hkeys :
          ((m.map (fun p => if p.1 = x.id then (x.id, x) else p)).map Prod.fst)
            = m.map Prod.fst := by
        rw [List.map_map]
        exact map_congr_mem (fun p _ => hf1 p)
      rw [hset, ih _ (by rw [hkeys]; exact hm) hrest]
      congr 1
      · rw [List.map_map]
        apply map_congr_mem
        intro p _
        by_cases hid : p.1 = x.id
        · simp only [Function.comp_apply, if_pos hid, hnone]
          rw [List.find?_cons_of_pos _ (by simp [hid]), hid]
        · simp only [Function.comp_apply, if_neg hid]
          rw [List.find?_cons_of_neg _ (by simpa using fun h => hid h.symm)]
      · have hdrop : (x :: rest).filter (fun t => !(m.any (fun p => p.1 = t.id)))
            = rest.filter (fun t => !(m.any (fun p => p.1 = t.id))) := by
          exact List.filter_cons_of_neg (by simp [hmem])
        rw [hdrop]
        congr 1
        apply filter_congr_mem
        intro t _
        congr 1
        rw [any_map_comp]
        apply any_congr_mem
        intro p _
        simp [hf1 p]
    | false =>
      have hset : RecipeDB.mapSet m x.id x = m ++ [(x.id, x)] := by
        simp [RecipeDB.mapSet, hmem]
      have hxm : x.id ∉ m.map Prod.fst := by
        intro hmm
        obtain ⟨p, hp, hp1⟩ := List.mem_map.mp hmm
        have h1 : m.any (fun p => p.1 = x.id) = true :=
          List.any_eq_true.mpr ⟨p, hp, by simp [hp1]⟩
        rw [hmem] at h1
        exact Bool.noConfusion h1
      have hm' : ((m ++ [(x.id, x)]).map Prod.fst).Nodup := by
        rw [List.map_append]
        refine List.Nodup.append hm (List.nodup_singleton _) ?_
        intro a ha hb
        simp only [List.map_cons, List.map_nil, List.mem_singleton] at hb
        exact hxm (hb ▸ ha)
      rw [hset, ih _ hm' hrest]
      rw [List.map_append]
      have hfx : ([((x.id : String), x)].map
          (fun p => match rest.find? (fun t => t.id = p.1) with
            | some t => (p.1, t)
            | none => p)) = [(x.id, x)] := by
        simp [hnone]
      rw [hfx]
      have hkeep : (x :: rest).filter (fun t => !(m.any (fun p => p.1 = t.id)))
          = x :: rest.filter (fun t => !(m.any (fun p => p.1 = t.id))) := by
        exact List.filter_cons_of_pos (by simp [hmem])
      rw [hkeep]
      have hmaps : m.map (fun p => match rest.find? (fun t => t.id = p.1) with
            | some t => (p.1, t)
            | none => p)
          = m.map (fun p => match (x :: rest).find? (fun t => t.id = p.1) with
            | some t => (p.1, t)
            | none => p) := by
        apply map_congr_mem
        intro p hp
        have hpx : x.id ≠ p.1 := by
          intro he
          exact hxm (he ▸ List.mem_map_of_mem Prod.fst hp)
        rw [List.find?_cons_of_neg _ (by simpa using hpx)]
      have hfilters : rest.filter
            (fun t => !((m ++ [(x.id, x)]).any (fun p => p.1 = t.id)))
          = rest.filter (fun t => !(m.any (fun p => p.1 = t.id))) := by
        apply filter_congr_mem
        intro t ht
        have htx : ¬ (x.id = t.id) := fun he => hxrest t ht he.symm
        simp [List.any_append, htx]
      rw [hmaps, hfilters]
      simp

theorem buildMap_eq_pairs (rs : List Recipe)
    (h : (rs.map Recipe.id).Nodup) :
    RecipeDB.buildMap rs = rs.map (fun r => (r.id, r)) := by
  have hspec := foldl_mapSet_spec rs [] (by simp) h
  simpa [RecipeDB.buildMap, List.filter_eq_self] using hspec

/-- C7 — on a collection with pairwise-distinct ids,
`importJSON(exportJSON())` is the identity: the import succeeds counting
every record, the collection document (records, order, version) is
unchanged, and only the snapshot persist happens. -/
theorem import_export_roundTrip (db : DBData)
    (h : (db.recipes.map Recipe.id).Nodup) :
    RecipeDB.importJSON db (RecipeDB.exportJSON db)
      = (.ok db.recipes.length, db, ⟨1, 0⟩) := by
  have hkn : ((db.recipes.map (fun r => (r.id, r))).map Prod.fst).Nodup := by
    rw [List.map_map]
    exact h
  rw [show RecipeDB.importJSON db (RecipeDB.exportJSON db)
      = (.ok db.recipes.length,
         { db with recipes := (db.recipes.foldl
             (fun acc r => RecipeDB.mapSet acc r.id r)
             (RecipeDB.buildMap db.recipes)).map (fun p => p.2) },
         ⟨1, 0⟩) from rfl]
  rw [buildMap_eq_pairs db.recipes h, foldl_mapSet_spec _ _ hkn h]
  have hmapid : (db.recipes.map (fun r => (r.id, r))).map
        (fun p => match db.recipes.find? (fun t => t.id = p.1) with
          | some t => (p.1, t)
          | none => p)
      = db.recipes.map (fun r => (r.id, r)) := by
    rw [List.map_map]
    apply map_congr_mem
    intro r hr
    simp [find?_self_of_nodup h hr]
  have hfilter : db.recipes.filter
        (fun t => !((db.recipes.map (fun r => (r.id, r))).any
          (fun p => p.1 = t.id)))
      = [] := by
    rw [List.filter_eq_nil_iff]
    intro t ht
    simp only [Bool.not_eq_true', Bool.not_eq_false]
    exact List.any_eq_true.mpr ⟨(t.id, t), List.mem_map_of_mem _ ht, by simp⟩
  rw [hmapid, hfilter]
  simp only [List.map_nil, List.append_nil, List.map_map]
  rw [show ((fun (p : String × Recipe) => p.2) ∘ fun (r : Recipe) => (r.id, r))
      = fun (r : Recipe) => r from rfl, List.map_id']

/-- C7 witness. -/
theorem import_export_roundTrip_witness :
    RecipeDB.importJSON soupDB (RecipeDB.exportJSON soupDB)
      = (.ok 1, soupDB, ⟨1, 0⟩) :=
  import_export_roundTrip soupDB (by decide)

/-- C8 counterexample — the claim quantifies over every imported sequence
and promises each incoming record whose id matches nothing is appended;
importing two distinct records sharing the id "b" into an empty
collection keeps only the last of them, because `Map.set` overwrites the
entry the first one created. -/
theorem importJSON_dup_incoming_cex :
    (RecipeDB.importJSON ⟨"1", []⟩ (.doc "1" [dupB1, dupB2])).2.1.recipes
      = [dupB2]
    ∧ (RecipeDB.importJSON ⟨"1", []⟩ (.doc "1" [dupB1, dupB2])).2.1.recipes
      ≠ [dupB1, dupB2] :=
  ⟨rfl, by decide⟩

/-- C8 (amended) — for an existing collection (id-distinct, per the data
model's invariant) and an imported sequence of records with
pairwise-distinct ids, `importJSON` replaces in place exactly those
existing records whose id an incoming record matches, leaves every other
existing record unchanged in its original position, appends the incoming
records whose id matches no existing record in their incoming order, and
deletes nothing; when the incoming sequence repeats an id, only its last
record with that id survives. -/
theorem importJSON_merge (db : DBData) (v : String) (incoming : List Recipe)
    (h1 : (db.recipes.map Recipe.id).Nodup)
    (h2 : (incoming.map Recipe.id).Nodup) :
    (RecipeDB.importJSON db (.doc v incoming)).2.1.recipes
      = db.recipes.map (fun r => ((incoming.find? (fun t => t.id = r.id)).getD r))
        ++ incoming.filter (fun t => !(db.recipes.any (fun r => r.id = t.id))) := by
  have hkn : ((db.recipes.map (fun r => (r.id, r))).map Prod.fst).Nodup := by
    rw [List.map_map]
    exact h1
  rw [show (RecipeDB.importJSON db (.doc v incoming)).2.1.recipes
      = (incoming.foldl (fun acc r => RecipeDB.mapSet acc r.id r)
          (RecipeDB.buildMap db.recipes)).map (fun p => p.2) from rfl]
  rw [buildMap_eq_pairs db.recipes h1, foldl_mapSet_spec _ _ hkn h2]
  rw [List.map_append]
  congr 1
  · rw [List.map_map, List.map_map]
    apply map_congr_mem
    intro r _
    cases hf : incoming.find? (fun t => t.id = r.id) with
    | none => simp [Function.comp, hf]
    | some t => simp [Function.comp, hf]
  · rw [List.map_map]
    rw [show ((fun (p : String × Recipe) => p.2) ∘ fun (t : Recipe) => (t.id, t))
        = fun (t : Recipe) => t from rfl]
    rw [List.map_id']
    apply filter_congr_mem
    intro t _
    congr 1
    rw [any_map_comp]

/-- C8 (amended) witness. -/
theorem importJSON_merge_witness :
    (RecipeDB.importJSON soupDB (.doc "2" [newSoup, pieRec])).2.1.recipes
      = [newSoup, pieRec] :=
  importJSON_merge soupDB "2" [newSoup, pieRec] (by decide) (by decide)

end RecipesKD
